import Mathlib

/-
Verification development for the flappy-push-up repository.

Part 1 embeds the ranking service (src/worker/index.js): the score
histogram, percentile computation, and the capped leaderboard with its
admission/eviction logic.  The D1 database is modelled as explicit state:
the histogram table as a total function from bucket score to count (a row
absent from the table is a count of 0, which yields the same SQL SUMs),
and the leaderboard table as a list of entries in insertion order, with
created_at modelled as a strictly increasing natural-number timestamp
supplied by the driver.  SQL aggregate queries are translated to the
corresponding folds/sums.  JavaScript numbers that only ever hold
integers are modelled as Nat/Int; Math.round is floor(x + 1/2), matching
its round-half-up behaviour on the nonnegative values that arise here.

Part 2 embeds the simulation engine (src/js/game.js), the movement-intent
detector (src/js/main.js), and the client leaderboard cache
(src/js/leaderboard.js) over exact rationals, with Math.random threaded
as an explicit oracle parameter in [0,1).
-/

set_option maxRecDepth 8192

/-! ### Part 1: ranking service (src/worker/index.js) -/

/-- Whitespace for the purposes of String.prototype.trim (the
characters that can occur in this setting). -/
def isWhite (c : Char) : Bool :=
  c = ' ' || c = '\t' || c = '\n' || c = '\r'

/-- JavaScript name.trim(): strip leading and trailing whitespace
(embedded over the character list so it evaluates). -/
def jsTrim (s : String) : String :=
  ⟨((s.data.dropWhile isWhite).reverse.dropWhile isWhite).reverse⟩

/-- JavaScript Math.round on the nonnegative values used here:
round half up, i.e. floor(q + 1/2). -/
def roundJS (q : ℚ) : ℤ := Int.floor (q + 1/2)

/-- MAX_TRACKED_SCORE = 200 (src/worker/index.js line 15). -/
def MAX_TRACKED_SCORE : ℕ := 200

/-- MAX_LEADERBOARD = 100 (src/worker/index.js line 13). -/
def MAX_LEADERBOARD : ℕ := 100

/-- The score_histogram table: bucket score (0..200) to count.
Rows never inserted carry count 0, which gives the same SQL SUMs. -/
def Hist : Type := ℕ → ℕ

/-- INSERT ... ON CONFLICT(score) DO UPDATE SET count = count + 1
(src/worker/index.js lines 91-95), at the already clamped score. -/
def histInsert (h : Hist) (clamped : ℕ) : Hist :=
  fun s => if s = clamped then h s + 1 else h s

/-- Sum of f over 0, ..., n-1 (explicit recursion so that concrete
instances evaluate). -/
def sumTo (f : ℕ → ℕ) : ℕ → ℕ
  | 0 => 0
  | n + 1 => sumTo f n + f n

/-- SELECT SUM(count) FROM score_histogram: buckets live in [0,200]. -/
def histTotal (h : Hist) : ℕ := sumTo h 201

/-- SELECT SUM(CASE WHEN score < ? THEN count ELSE 0 END): the bound
parameter is the raw submitted score (src/worker/index.js line 169). -/
def histBelow (h : Hist) (score : ℕ) : ℕ :=
  sumTo (fun s => if s < score then h s else 0) 201

/-- calculatePercentile (src/worker/index.js lines 164-179).  The
total-is-zero guard corresponds to the empty-table / NULL-SUM case. -/
def calculatePercentile (h : Hist) (score : ℕ) : ℤ :=
  if histTotal h = 0 then 50
  else roundJS (((histBelow h score : ℚ) / (histTotal h : ℚ)) * 100)

/-- A leaderboard row (id is implicit: entries are identified by their
distinct createdAt timestamps supplied by the sequential driver). -/
structure Entry where
  name : String
  score : ℕ
  createdAt : ℕ
  deriving DecidableEq, Repr

/-- SELECT score FROM leaderboard ORDER BY score ASC LIMIT 1
(src/worker/index.js lines 101-105): the minimum score, if any. -/
def lowestScore : List Entry → Option ℕ
  | [] => none
  | e :: es => some (es.foldl (fun m x => min m x.score) e.score)

/-- Strict comparison realising ORDER BY score ASC, created_at DESC:
a sorts strictly before b. -/
def moreEvictable (a b : Entry) : Bool :=
  decide (a.score < b.score) ||
    (a.score == b.score && decide (b.createdAt < a.createdAt))

/-- One step of selecting the minimum under (score ASC, created_at DESC). -/
def evictFold (best x : Entry) : Entry :=
  if moreEvictable x best then x else best

/-- The row selected by SELECT id FROM leaderboard ORDER BY score ASC,
created_at DESC LIMIT 1 (src/worker/index.js lines 124-128). -/
def pickEvict : List Entry → Option Entry
  | [] => none
  | e :: es => some (es.foldl evictFold e)

/-- The admission test (src/worker/index.js line 114): fewer than 100
entries, or the score strictly beats the current lowest. -/
def admits (lb : List Entry) (score : ℕ) : Bool :=
  decide (lb.length < MAX_LEADERBOARD) ||
    (match lowestScore lb with
     | some l => decide (l < score)
     | none => false)

/-- Ordering used by the returned leaderboard:
ORDER BY score DESC, created_at ASC. -/
def lbBefore (a b : Entry) : Prop :=
  b.score < a.score ∨ (a.score = b.score ∧ a.createdAt ≤ b.createdAt)

instance : DecidableRel lbBefore := fun a b => by
  unfold lbBefore; infer_instance

/-- SELECT name, score, created_at FROM leaderboard
ORDER BY score DESC, created_at ASC LIMIT 100. -/
def sortLB (lb : List Entry) : List Entry :=
  (List.insertionSort lbBefore lb).take MAX_LEADERBOARD

/-- The worker's database state: both persisted tables. -/
structure DB where
  hist : Hist
  lb : List Entry

/-- Database with no rows in either table. -/
def dbEmpty : DB := ⟨fun _ => 0, []⟩

/-- The JSON body of a successful POST /api/score response. -/
structure SubmitOk where
  madeLeaderboard : Bool
  percentile : ℤ
  rank : Option ℕ
  leaderboard : List Entry
  deriving DecidableEq, Repr

/-- The inserted row: name trimmed and truncated to 20 characters
(src/worker/index.js line 87), with the raw (unclamped) score. -/
def mkEntry (name : String) (score t : ℕ) : Entry :=
  ⟨⟨(jsTrim name).data.take 20⟩, score, t⟩

/-- The admitted-entry path (src/worker/index.js lines 114-130): insert
the row, and if the table was already at the cap, delete the row picked
by ORDER BY score ASC, created_at DESC LIMIT 1. -/
def admitEntry (lb : List Entry) (e : Entry) : List Entry :=
  let lbIns := lb ++ [e]
  if MAX_LEADERBOARD ≤ lb.length then
    match pickEvict lbIns with
    | some p => lbIns.erase p
    | none => lbIns
  else lbIns

/-- submitScore (src/worker/index.js lines 75-158).  t is the
datetime('now') timestamp of this request; the result is the updated
database plus the response body (none models the 400 validation error;
score being a Nat already captures the non-negative-integer check).
The rank query COUNT(*) + 1 WHERE score > ? runs on the post-insert,
post-evict table. -/
def submitScore (db : DB) (t : ℕ) (name : String) (score : ℕ) : DB × Option SubmitOk :=
  if (jsTrim name).length = 0 then (db, none) else
  let hist1 := histInsert db.hist (min score MAX_TRACKED_SCORE)
  let percentile := calculatePercentile hist1 score
  if admits db.lb score then
    let lb1 := admitEntry db.lb (mkEntry name score t)
    let rank := (lb1.filter (fun x => decide (score < x.score))).length + 1
    (⟨hist1, lb1⟩, some ⟨true, percentile, some rank, sortLB lb1⟩)
  else
    (⟨hist1, db.lb⟩, some ⟨false, percentile, none, sortLB db.lb⟩)

/-- Sequential submissions with strictly increasing timestamps. -/
def runSubmits : ℕ → List (String × ℕ) → DB → DB
  | _, [], db => db
  | t, p :: rest, db => runSubmits (t + 1) rest (submitScore db t p.1 p.2).1

/-- The entries that a run of sequential admitted submissions inserts. -/
def mkEntries : ℕ → List (String × ℕ) → List Entry
  | _, [] => []
  | t, p :: rest => mkEntry p.1 p.2 t :: mkEntries (t + 1) rest

/-! ### Part 2: simulation engine (src/js/game.js)

Numeric values are exact rationals.  Fields set once in the constructor
and never reassigned anywhere in the source are module constants; fields
the source mutates are fields of the Game structure.  Math.random is an
explicit oracle parameter r in [0,1). -/

/-- GameState (src/js/game.js lines 6-10). -/
inductive GState where
  | waiting
  | playing
  | gameOver
  deriving DecidableEq, Repr

/-- One pipe pair (src/js/game.js lines 136-141). -/
structure Pipe where
  x : ℚ
  gapTop : ℚ
  gapBottom : ℚ
  passed : Bool
  deriving DecidableEq, Repr

/-- bird.radius = 25, constructor-set, never reassigned. -/
def birdRadius : ℚ := 25

/-- birdSmoothingFactor = 0.15. -/
def birdSmoothingFactor : ℚ := 3/20

/-- pipeWidth = 80. -/
def pipeWidth : ℚ := 80

/-- pipeSpawnInterval = 2000 ms. -/
def pipeSpawnInterval : ℚ := 2000

/-- minPipeHeight = 50. -/
def minPipeHeight : ℚ := 50

/-- basePipeSpeed = 3. -/
def basePipeSpeed : ℚ := 3

/-- difficultyIncreaseRate = 0.1 per point. -/
def difficultyIncreaseRate : ℚ := 1/10

/-- groundHeight = 50. -/
def groundHeight : ℚ := 50

/-- ceilingHeight = 0. -/
def ceilingHeight : ℚ := 0

/-- The mutable state of a FlappyGame instance. -/
structure Game where
  width : ℚ
  height : ℚ
  state : GState
  score : ℕ
  highScore : ℕ
  birdX : ℚ
  birdY : ℚ
  birdTargetY : ℚ
  pipes : List Pipe
  pipeGap : ℚ
  basePipeGap : ℚ
  pipeSpeed : ℚ
  lastPipeSpawn : ℚ
  deriving DecidableEq, Repr

/-- The FlappyGame constructor (src/js/game.js lines 13-50); hs is the
high score loaded from storage. -/
def initGame (w h : ℚ) (hs : ℕ) : Game :=
  { width := w, height := h, state := .waiting, score := 0, highScore := hs,
    birdX := w * (1/5), birdY := h / 2, birdTargetY := h / 2,
    pipes := [], pipeGap := 180, basePipeGap := 180,
    pipeSpeed := basePipeSpeed, lastPipeSpawn := 0 }

/-- setBirdTargetFromPose (src/js/game.js lines 56-65). -/
def setBirdTargetFromPose (g : Game) (normalizedY : ℚ) : Game :=
  let playableHeight := g.height - groundHeight - ceilingHeight
  let padding := birdRadius * 2
  { g with birdTargetY := ceilingHeight + padding + normalizedY * (playableHeight - padding * 2) }

/-- updateBirdPosition (src/js/game.js lines 93-96). -/
def updateBirdPosition (g : Game) : Game :=
  { g with birdY := g.birdY + (g.birdTargetY - g.birdY) * birdSmoothingFactor }

/-- The body of updatePipes's backward for-loop (src/js/game.js lines
102-119): the JS loop runs from the last index down to 0 and splices in
place, so the recursion processes the tail (higher indices) before the
head, and survivors keep their relative order.  speed is the
currentSpeed precomputed once at line 100; the running score and
pipeSpeed (reassigned by updateDifficulty, line 173, on each pass) are
threaded through.  Returns (surviving pipes, score, pipeSpeed). -/
def processPipes (birdX speed : ℚ) : List Pipe → ℕ → ℚ → List Pipe × ℕ × ℚ
  | [], score, ps => ([], score, ps)
  | p :: rest, score, ps =>
    let res := processPipes birdX speed rest score ps
    let x1 := p.x - speed
    let passes := !p.passed && decide (x1 + pipeWidth < birdX)
    let score1 := if passes then res.2.1 + 1 else res.2.1
    let ps1 := if passes then basePipeSpeed + (score1 : ℚ) * difficultyIncreaseRate else res.2.2
    let p1 : Pipe := ⟨x1, p.gapTop, p.gapBottom, p.passed || passes⟩
    if x1 + pipeWidth < 0 then (res.1, score1, ps1)
    else (p1 :: res.1, score1, ps1)

/-- updatePipes (src/js/game.js lines 98-120): currentSpeed is computed
once from the pipeSpeed and score at entry. -/
def updatePipes (g : Game) : Game :=
  let currentSpeed := g.pipeSpeed + (g.score : ℚ) * difficultyIncreaseRate
  let res := processPipes g.birdX currentSpeed g.pipes g.score g.pipeSpeed
  { g with pipes := res.1, score := res.2.1, pipeSpeed := res.2.2 }

/-- checkCollisions (src/js/game.js lines 145-169). -/
def checkCollisions (g : Game) : Bool :=
  (decide (g.birdY - birdRadius < ceilingHeight) ||
    decide (g.height - groundHeight < g.birdY + birdRadius)) ||
  g.pipes.any (fun p =>
    (decide (p.x < g.birdX + birdRadius) && decide (g.birdX - birdRadius < p.x + pipeWidth)) &&
    (decide (g.birdY - birdRadius < p.gapTop) || decide (p.gapBottom < g.birdY + birdRadius)))

/-- gameOver (src/js/game.js lines 190-198); the storage write is a
silent side effect outside the model. -/
def gameOverStep (g : Game) : Game :=
  { g with state := .gameOver,
           highScore := if g.highScore < g.score then g.score else g.highScore }

/-- spawnPipes (src/js/game.js lines 122-143), with Math.random's value
r threaded explicitly. -/
def spawnPipes (g : Game) (dt r : ℚ) : Game :=
  let t := g.lastPipeSpawn + dt
  if pipeSpawnInterval ≤ t then
    let currentGap := max 120 (g.basePipeGap - (g.score : ℚ) * 2)
    let playableHeight := g.height - groundHeight - ceilingHeight
    let maxGapTop := playableHeight - currentGap - minPipeHeight
    let gapTop := minPipeHeight + r * maxGapTop
    { g with lastPipeSpawn := 0,
             pipes := g.pipes ++ [⟨g.width, gapTop, gapTop + currentGap, false⟩] }
  else { g with lastPipeSpawn := t }

/-- update (src/js/game.js lines 71-91): note that after a collision
sets GAME_OVER, spawnPipes still runs in the same call. -/
def update (g : Game) (dt r : ℚ) : Game :=
  if g.state ≠ GState.playing then updateBirdPosition g
  else
    let g1 := updateBirdPosition g
    let g2 := updatePipes g1
    let g3 := if checkCollisions g2 then gameOverStep g2 else g2
    spawnPipes g3 dt r

/-- start (src/js/game.js lines 179-185). -/
def startGame (g : Game) : Game :=
  { g with state := .playing, score := 0, pipes := [],
           lastPipeSpawn := 0, pipeSpeed := basePipeSpeed }

/-- reset (src/js/game.js lines 203-209). -/
def resetGame (g : Game) : Game :=
  { g with state := .waiting, score := 0, pipes := [],
           lastPipeSpawn := 0, pipeSpeed := basePipeSpeed }

/-- resize (src/js/game.js lines 214-222). -/
def resize (g : Game) (w h : ℚ) : Game :=
  { g with width := w, height := h, birdX := w * (1/5),
           pipeGap := min 180 (h * (1/4)), basePipeGap := min 180 (h * (1/4)) }

/-! ### Part 2b: movement-intent detector (src/js/main.js lines 168-184,
identical in src/unnamed/part_000 lines 217-233) -/

/-- movementThreshold = 0.05, constructor-set, never reassigned. -/
def movementThreshold : ℚ := 1/20

/-- The detector's mutable state. -/
structure MoveState where
  lastShoulderY : ℚ
  movementDetected : Bool
  movementCooldown : ℕ
  deriving DecidableEq, Repr

/-- detectMovement: on positive cooldown it decrements and returns at
once (before the lastShoulderY assignment); otherwise it compares the
absolute delta against the threshold and, on a fire, sets the flag and
a 30-tick cooldown, then records the current signal value. -/
def detectMovement (s : MoveState) (currentY : ℚ) : MoveState :=
  if 0 < s.movementCooldown then
    { s with movementCooldown := s.movementCooldown - 1 }
  else
    let movement := |currentY - s.lastShoulderY|
    let s1 := if movementThreshold < movement then
        { s with movementDetected := true, movementCooldown := 30 }
      else s
    { s1 with lastShoulderY := currentY }

/-! ### Part 2c: client leaderboard API (src/js/leaderboard.js, i.e.
src/unnamed/part_001) -/

/-- The object LeaderboardAPI.submitScore resolves to: on success the
server's response body, on failure the catch-block fallback. -/
structure ClientSubmitResult where
  madeLeaderboard : Bool
  percentile : Option ℤ
  rank : Option ℕ
  leaderboard : List Entry
  deriving DecidableEq, Repr

/-- Outcome of the fetch call: a thrown error (network failure, bad
JSON, ...) or an HTTP response with its ok flag and parsed body. -/
inductive FetchResult (α : Type) where
  | networkError
  | response (ok : Bool) (data : α)

/-- LeaderboardAPI.submitScore (src/unnamed/part_001 lines 52-86) as a
function of the cache state and the fetch outcome; everything is inside
one try/catch whose catch returns normally, so the function is total:
it returns the result object plus the new cachedLeaderboard. -/
def clientSubmitScore (cache : Option (List Entry))
    (outcome : FetchResult ClientSubmitResult) :
    ClientSubmitResult × Option (List Entry) :=
  match outcome with
  | .networkError => (⟨false, none, none, cache.getD []⟩, cache)
  | .response ok data =>
    if ok then (data, some data.leaderboard)
    else (⟨false, none, none, cache.getD []⟩, cache)

/-! ### Theorems -/

/-- For a valid name, the response's percentile field is the percentile
of the raw score against the post-increment histogram. -/
theorem submitScore_percentile (db : DB) (t : ℕ) (name : String) (score : ℕ)
    (hname : (jsTrim name).length ≠ 0) :
    (submitScore db t name score).2.map SubmitOk.percentile =
      some (calculatePercentile (histInsert db.hist (min score MAX_TRACKED_SCORE)) score) := by
  unfold submitScore
  rw [if_neg hname]
  split <;> rfl

/-- For a valid name, the database after submitScore: histogram bucket
incremented at the clamped score, leaderboard stepped when admitted. -/
theorem submitScore_db (db : DB) (t : ℕ) (name : String) (score : ℕ)
    (hname : (jsTrim name).length ≠ 0) :
    (submitScore db t name score).1 =
      ⟨histInsert db.hist (min score MAX_TRACKED_SCORE),
       if admits db.lb score then admitEntry db.lb (mkEntry name score t) else db.lb⟩ := by
  unfold submitScore
  rw [if_neg hname]
  rcases Bool.eq_false_or_eq_true (admits db.lb score) with h | h <;>
    simp only [h, if_true, if_false, Bool.false_eq_true] <;> rfl

/-- A concrete game state used to instantiate theorems about the
smoothing step. -/
def gBird : Game :=
  { width := 800, height := 600, state := .waiting, score := 0, highScore := 0,
    birdX := 160, birdY := 0, birdTargetY := 20, pipes := [], pipeGap := 180,
    basePipeGap := 180, pipeSpeed := 3, lastPipeSpawn := 0 }

/-- C7: on every tick, the avatar's y after the smoothing update lies
strictly between its pre-update y and targetY whenever they differ, and
stays equal to targetY when they coincide: with factor 0.15 the update
never overshoots. -/
theorem c7_bird_smoothing_no_overshoot (g : Game) :
    (g.birdY < g.birdTargetY →
      g.birdY < (updateBirdPosition g).birdY ∧
        (updateBirdPosition g).birdY < g.birdTargetY) ∧
    (g.birdTargetY < g.birdY →
      g.birdTargetY < (updateBirdPosition g).birdY ∧
        (updateBirdPosition g).birdY < g.birdY) ∧
    (g.birdY = g.birdTargetY → (updateBirdPosition g).birdY = g.birdTargetY) := by
  unfold updateBirdPosition birdSmoothingFactor
  dsimp only
  refine ⟨fun h => ⟨?_, ?_⟩, fun h => ⟨?_, ?_⟩, fun h => ?_⟩
  · nlinarith
  · nlinarith
  · nlinarith
  · nlinarith
  · rw [h]; ring

/-- Witness for C7 at a concrete state. -/
theorem c7_witness :
    (0 : ℚ) < (updateBirdPosition gBird).birdY ∧
      (updateBirdPosition gBird).birdY < 20 :=
  (c7_bird_smoothing_no_overshoot gBird).1 (by norm_num [gBird])

/-- C8: resize leaves the obstacle list (hence every field of every
in-flight obstacle), the state, the score and the high score unchanged,
while the avatar's horizontal anchor becomes 20% of the new width and
the base gap becomes min(180, 25% of the new height). -/
theorem c8_resize_effect (g : Game) (w h : ℚ) :
    (resize g w h).pipes = g.pipes ∧
    (resize g w h).birdX = w * (1/5) ∧
    (resize g w h).pipeGap = min 180 (h * (1/4)) ∧
    (resize g w h).basePipeGap = min 180 (h * (1/4)) ∧
    (resize g w h).state = g.state ∧
    (resize g w h).score = g.score ∧
    (resize g w h).highScore = g.highScore :=
  ⟨rfl, rfl, rfl, rfl, rfl, rfl, rfl⟩

/-- C10: the client submitScore never rejects; on a thrown fetch error
or a non-ok response it resolves to madeLeaderboard = false, null
percentile and rank, and the last cached leaderboard (empty if none),
leaving the cache unchanged. -/
theorem c10_client_submit_fallback (cache : Option (List Entry))
    (d : ClientSubmitResult) :
    (clientSubmitScore cache .networkError).1 =
      ⟨false, none, none, cache.getD []⟩ ∧
    (clientSubmitScore cache (.response false d)).1 =
      ⟨false, none, none, cache.getD []⟩ ∧
    (clientSubmitScore cache .networkError).2 = cache ∧
    (clientSubmitScore cache (.response false d)).2 = cache :=
  ⟨rfl, rfl, rfl, rfl⟩

/-- A detector state in cooldown, for the C4 counterexample. -/
def moveStateC4 : MoveState := ⟨1/2, false, 1⟩

/-- C4 is false on the code: with a positive cooldown, detectMovement
returns before the lastShoulderY assignment, so the recorded signal
value is left at 1/2 instead of the current 9/10. -/
theorem c4_counterexample :
    (detectMovement moveStateC4 (9/10)).lastShoulderY ≠ (9/10 : ℚ) := by
  simp only [detectMovement, moveStateC4]
  norm_num

/-- C4 amended: lastSignalValue is updated to the current value on every
tick on which the cooldown is zero (whether or not an intent fired);
on a tick with positive cooldown the detector only decrements the
cooldown and leaves lastSignalValue and the intent flag unchanged. -/
theorem c4_amended (s : MoveState) (y : ℚ) :
    (s.movementCooldown = 0 → (detectMovement s y).lastShoulderY = y) ∧
    (0 < s.movementCooldown →
      (detectMovement s y).lastShoulderY = s.lastShoulderY ∧
      (detectMovement s y).movementCooldown = s.movementCooldown - 1 ∧
      (detectMovement s y).movementDetected = s.movementDetected) := by
  constructor
  · intro h
    unfold detectMovement
    rw [h, if_neg (lt_irrefl 0)]
  · intro h
    unfold detectMovement
    rw [if_pos h]
    exact ⟨rfl, rfl, rfl⟩

/-- Witness for C4 amended, at a cooldown-free concrete state. -/
theorem c4_witness :
    (detectMovement ⟨1/2, false, 0⟩ (9/10)).lastShoulderY = 9/10 :=
  (c4_amended ⟨1/2, false, 0⟩ (9/10)).1 rfl

/-- C1 is contradicted by the code: the histogram bucket is incremented
before calculatePercentile runs, so on the very first submission ever
(empty histogram and leaderboard) the total is already 1 and the
first-player branch returning 50 is unreachable; a first submission of
score 5 returns percentile 0, not 50. -/
theorem c1_first_submission_percentile :
    ((submitScore dbEmpty 0 "alice" 5).2.map SubmitOk.percentile) = some 0 ∧
    ((submitScore dbEmpty 0 "alice" 5).2.map SubmitOk.percentile) ≠ some 50 := by
  have hname : (jsTrim "alice").length ≠ 0 := by decide
  have hp : (submitScore dbEmpty 0 "alice" 5).2.map SubmitOk.percentile =
      some (calculatePercentile (histInsert dbEmpty.hist (min 5 MAX_TRACKED_SCORE)) 5) :=
    submitScore_percentile dbEmpty 0 "alice" 5 hname
  have htot : histTotal (histInsert dbEmpty.hist (min 5 MAX_TRACKED_SCORE)) = 1 := by decide
  have hbel : histBelow (histInsert dbEmpty.hist (min 5 MAX_TRACKED_SCORE)) 5 = 0 := by decide
  rw [hp, calculatePercentile, htot, hbel, if_neg one_ne_zero]
  norm_num [roundJS]

/-- Inserting at a bucket below the cutoff raises the partial sum by 1. -/
theorem sumTo_insert_lt (h : Hist) (c : ℕ) :
    ∀ n, (n ≤ c → sumTo (histInsert h c) n = sumTo h n) ∧
      (c < n → sumTo (histInsert h c) n = sumTo h n + 1) := by
  intro n
  induction n with
  | zero => exact ⟨fun _ => rfl, fun hc => absurd hc (Nat.not_lt_zero c)⟩
  | succ n ih =>
    constructor
    · intro hle
      show sumTo (histInsert h c) n + histInsert h c n = sumTo h n + h n
      rw [(ih.1 (Nat.le_of_succ_le hle)), histInsert, if_neg (by omega)]
    · intro hlt
      rcases Nat.lt_succ_iff_lt_or_eq.1 hlt with hlt' | heq
      · show sumTo (histInsert h c) n + histInsert h c n = sumTo h n + h n + 1
        rw [ih.2 hlt', histInsert, if_neg (by omega)]
        omega
      · show sumTo (histInsert h c) n + histInsert h c n = sumTo h n + h n + 1
        rw [ih.1 (le_of_eq heq.symm), histInsert, if_pos heq.symm]
        omega

/-- The histogram upsert always increments the total by exactly 1. -/
theorem histTotal_insert (h : Hist) (score : ℕ) :
    histTotal (histInsert h (min score MAX_TRACKED_SCORE)) = histTotal h + 1 :=
  (sumTo_insert_lt h (min score MAX_TRACKED_SCORE) 201).2
    (by have := min_le_right score MAX_TRACKED_SCORE; unfold MAX_TRACKED_SCORE at *; omega)

/-- When the cutoff exceeds every summed index the CASE filter is a no-op. -/
theorem sumTo_if_all (f : ℕ → ℕ) (score : ℕ) :
    ∀ n, n ≤ score → sumTo (fun s => if s < score then f s else 0) n = sumTo f n := by
  intro n
  induction n with
  | zero => intro _; rfl
  | succ n ih =>
    intro hle
    show sumTo (fun s => if s < score then f s else 0) n +
        (if n < score then f n else 0) = sumTo f n + f n
    rw [ih (Nat.le_of_succ_le hle), if_pos (by omega)]

/-- For a raw score above the tracked cap, every bucket counts as below. -/
theorem histBelow_big (h : Hist) (score : ℕ) (hs : MAX_TRACKED_SCORE < score) :
    histBelow h score = histTotal h :=
  sumTo_if_all h score 201 (by unfold MAX_TRACKED_SCORE at hs; omega)

/-- Rounding 100·n/n for a nonzero count gives exactly 100. -/
theorem roundJS_self_div (n : ℕ) (hn : n ≠ 0) :
    roundJS ((n : ℚ) / (n : ℚ) * 100) = 100 := by
  rw [div_self (Nat.cast_ne_zero.2 hn), one_mul, roundJS]
  norm_num

/-- The histogram with one recorded play of score 0, and the database
around it: the C3 counterexample's prior state. -/
def histC3 : Hist := fun s => if s = 0 then 1 else 0

/-- Database with one prior play (score 0) and an empty leaderboard. -/
def dbC3 : DB := ⟨histC3, []⟩

/-- C3 is false on the code for scores above the tracked cap: with one
prior play of score 0, submitting score 201 returns percentile 100
(the SQL comparison uses the raw score, so the submission's own bucket
counts as below), while the claimed formula over the clamped score
gives round(100·1/2) = 50. -/
theorem c3_counterexample :
    (submitScore dbC3 0 "bob" 201).2.map SubmitOk.percentile = some 100 ∧
    roundJS (((histBelow (histInsert dbC3.hist (min 201 MAX_TRACKED_SCORE))
        (min 201 MAX_TRACKED_SCORE) : ℚ) /
      (histTotal (histInsert dbC3.hist (min 201 MAX_TRACKED_SCORE)) : ℚ)) * 100) = 50 ∧
    (100 : ℤ) ≠ 50 := by
  refine ⟨?_, ?_, by decide⟩
  · rw [submitScore_percentile dbC3 0 "bob" 201 (by decide)]
    have htot : histTotal (histInsert dbC3.hist (min 201 MAX_TRACKED_SCORE)) = 2 := by decide
    have hbel : histBelow (histInsert dbC3.hist (min 201 MAX_TRACKED_SCORE)) 201 = 2 := by decide
    rw [calculatePercentile, htot, hbel, if_neg (by omega)]
    exact congrArg some (roundJS_self_div 2 (by omega))
  · have htot : histTotal (histInsert dbC3.hist (min 201 MAX_TRACKED_SCORE)) = 2 := by decide
    have hbel : histBelow (histInsert dbC3.hist (min 201 MAX_TRACKED_SCORE))
        (min 201 MAX_TRACKED_SCORE) = 1 := by decide
    rw [htot, hbel, roundJS]
    norm_num

/-- C3 amended: for a valid submission with at least one prior recorded
play, the returned percentile equals round(100·below/total) over the
post-increment histogram with buckets compared against the raw score;
this agrees with the claimed clamped-score formula whenever
score ≤ 200, and equals exactly 100 whenever score > 200. -/
theorem c3_amended (db : DB) (t : ℕ) (name : String) (score : ℕ)
    (hname : (jsTrim name).length ≠ 0) (hprior : histTotal db.hist ≠ 0) :
    (submitScore db t name score).2.map SubmitOk.percentile =
      some (if score ≤ MAX_TRACKED_SCORE then
        roundJS (((histBelow (histInsert db.hist (min score MAX_TRACKED_SCORE))
            (min score MAX_TRACKED_SCORE) : ℚ) /
          (histTotal (histInsert db.hist (min score MAX_TRACKED_SCORE)) : ℚ)) * 100)
      else 100) := by
  rw [submitScore_percentile db t name score hname]
  have htot : histTotal (histInsert db.hist (min score MAX_TRACKED_SCORE)) =
      histTotal db.hist + 1 := histTotal_insert db.hist score
  refine congrArg some ?_
  by_cases hs : score ≤ MAX_TRACKED_SCORE
  · rw [if_pos hs, calculatePercentile, if_neg (by omega), min_eq_left hs]
  · rw [if_neg hs, calculatePercentile, if_neg (by omega),
      histBelow_big _ score (by omega), roundJS_self_div _ (by omega)]

/-- Witness for C3 amended at a concrete database with one prior play. -/
theorem c3_witness :
    (submitScore dbC3 0 "amy" 7).2.map SubmitOk.percentile =
      some (if 7 ≤ MAX_TRACKED_SCORE then
        roundJS (((histBelow (histInsert dbC3.hist (min 7 MAX_TRACKED_SCORE))
            (min 7 MAX_TRACKED_SCORE) : ℚ) /
          (histTotal (histInsert dbC3.hist (min 7 MAX_TRACKED_SCORE)) : ℚ)) * 100)
      else 100) :=
  c3_amended dbC3 0 "amy" 7 (by decide) (by decide)

/-- Every pipe surviving the updatePipes loop is an input pipe moved
left by exactly the precomputed currentSpeed, with its gap unchanged:
the displacement never depends on score increments made while the loop
runs. -/
theorem processPipes_mem (bx sp : ℚ) :
    ∀ (l : List Pipe) (score : ℕ) (ps : ℚ) (q : Pipe),
      q ∈ (processPipes bx sp l score ps).1 →
      ∃ p ∈ l, q.x = p.x - sp ∧ q.gapTop = p.gapTop ∧ q.gapBottom = p.gapBottom := by
  intro l
  induction l with
  | nil => intro score ps q hq; simp [processPipes] at hq
  | cons p rest ih =>
    intro score ps q hq
    simp only [processPipes] at hq
    split at hq
    · obtain ⟨p', hp', hx, ht, hb⟩ := ih score ps q hq
      exact ⟨p', List.mem_cons_of_mem p hp', hx, ht, hb⟩
    · rcases List.mem_cons.1 hq with hq1 | hq2
      · exact ⟨p, List.mem_cons_self p rest, by rw [hq1], by rw [hq1], by rw [hq1]⟩
      · obtain ⟨p', hp', hx, ht, hb⟩ := ih score ps q hq2
        exact ⟨p', List.mem_cons_of_mem p hp', hx, ht, hb⟩

/-- The updatePipes loop never adds pipes. -/
theorem processPipes_length (bx sp : ℚ) :
    ∀ (l : List Pipe) (score : ℕ) (ps : ℚ),
      (processPipes bx sp l score ps).1.length ≤ l.length := by
  intro l
  induction l with
  | nil => intro score ps; exact Nat.le_refl 0
  | cons p rest ih =>
    intro score ps
    simp only [processPipes]
    split
    · exact Nat.le_succ_of_le (ih score ps)
    · exact Nat.succ_le_succ (ih score ps)

/-- The loop leaves the score/pipeSpeed coupling intact: if pipeSpeed
equals basePipeSpeed + score·difficultyIncreaseRate on entry, the same
holds for the returned score and pipeSpeed. -/
theorem processPipes_speed_coupling (bx sp : ℚ) :
    ∀ (l : List Pipe) (score : ℕ) (ps : ℚ),
      ps = basePipeSpeed + (score : ℚ) * difficultyIncreaseRate →
      (processPipes bx sp l score ps).2.2 =
        basePipeSpeed + ((processPipes bx sp l score ps).2.1 : ℚ) * difficultyIncreaseRate := by
  intro l
  induction l with
  | nil => intro score ps h; exact h
  | cons p rest ih =>
    intro score ps h
    simp only [processPipes]
    split <;>
      · rcases Bool.eq_false_or_eq_true (!p.passed && decide (p.x - sp + pipeWidth < bx)) with
          hb | hb <;> simp only [hb, if_true, if_false, Bool.false_eq_true] <;>
          exact ih score ps h

/-- updatePipes preserves the coupling pipeSpeed =
basePipeSpeed + score·difficultyIncreaseRate, which holds at every tick
start of a run (start() establishes it and nothing else touches
pipeSpeed or score). -/
theorem updatePipes_speed_coupling (g : Game)
    (hinv : g.pipeSpeed = basePipeSpeed + (g.score : ℚ) * difficultyIncreaseRate) :
    (updatePipes g).pipeSpeed =
      basePipeSpeed + ((updatePipes g).score : ℚ) * difficultyIncreaseRate :=
  processPipes_speed_coupling g.birdX
    (g.pipeSpeed + (g.score : ℚ) * difficultyIncreaseRate) g.pipes g.score g.pipeSpeed hinv

/-- start() establishes the speed/score coupling. -/
theorem startGame_speed_coupling (g : Game) :
    (startGame g).pipeSpeed =
      basePipeSpeed + ((startGame g).score : ℚ) * difficultyIncreaseRate := by
  simp [startGame]

/-- A mid-run state: one pipe passed, so score = 1 and (by the
maintained coupling) pipeSpeed = 3.1, with one live pipe at x = 400. -/
def gC2 : Game :=
  { width := 800, height := 600, state := .playing, score := 1, highScore := 0,
    birdX := 160, birdY := 300, birdTargetY := 300,
    pipes := [⟨400, 200, 380, true⟩], pipeGap := 180, basePipeGap := 180,
    pipeSpeed := 31/10, lastPipeSpawn := 0 }

/-- C2 is false on the code: at score 1 (pipeSpeed = 3.1 per the
coupling), updatePipes moves the pipe by pipeSpeed + score·0.1 = 3.2,
not by baseSpeed + score·0.1 = 3.1 as claimed: the pipe at x = 400
lands at 396.8 = 1984/5, not 396.9. -/
theorem c2_counterexample :
    (updatePipes gC2).pipes.map Pipe.x = [1984/5] ∧
    (1984/5 : ℚ) ≠ 400 - (basePipeSpeed + (gC2.score : ℚ) * difficultyIncreaseRate) := by
  constructor
  · simp only [updatePipes, gC2, processPipes]
    norm_num [pipeWidth, difficultyIncreaseRate]
  · norm_num [gC2, basePipeSpeed, difficultyIncreaseRate]

/-- C2 amended: each tick of PLAYING moves every obstacle left by
exactly pipeSpeed + score·0.1 with both read at the start of the tick
(so mid-tick score increments are indeed not retroactive), but since
updateDifficulty keeps pipeSpeed = baseSpeed + score·0.1, the effective
per-tick decrease is baseSpeed + 2·score·0.1, not the claimed
baseSpeed + score·0.1. -/
theorem c2_amended (g : Game)
    (hinv : g.pipeSpeed = basePipeSpeed + (g.score : ℚ) * difficultyIncreaseRate) :
    ∀ q ∈ (updatePipes g).pipes, ∃ p ∈ g.pipes,
      q.x = p.x - (basePipeSpeed + 2 * (g.score : ℚ) * difficultyIncreaseRate) ∧
      q.gapTop = p.gapTop ∧ q.gapBottom = p.gapBottom := by
  intro q hq
  obtain ⟨p, hp, hx, ht, hb⟩ :=
    processPipes_mem g.birdX (g.pipeSpeed + (g.score : ℚ) * difficultyIncreaseRate)
      g.pipes g.score g.pipeSpeed q hq
  refine ⟨p, hp, ?_, ht, hb⟩
  rw [hx, hinv]
  ring

/-- Witness for C2 amended at the concrete mid-run state. -/
theorem c2_witness :
    ∃ p ∈ gC2.pipes,
      (⟨1984/5, 200, 380, true⟩ : Pipe).x =
        p.x - (basePipeSpeed + 2 * (gC2.score : ℚ) * difficultyIncreaseRate) ∧
      (⟨1984/5, 200, 380, true⟩ : Pipe).gapTop = p.gapTop ∧
      (⟨1984/5, 200, 380, true⟩ : Pipe).gapBottom = p.gapBottom :=
  c2_amended gC2 (by norm_num [gC2, basePipeSpeed, difficultyIncreaseRate])
    ⟨1984/5, 200, 380, true⟩
    (by simp only [updatePipes, gC2, processPipes]
        norm_num [pipeWidth, difficultyIncreaseRate])

/-- A playing state on a 800×650 canvas at score 0, spawn timer due. -/
def gC5 : Game :=
  { width := 800, height := 650, state := .playing, score := 0, highScore := 0,
    birdX := 160, birdY := 300, birdTargetY := 300, pipes := [], pipeGap := 180,
    basePipeGap := 180, pipeSpeed := 3, lastPipeSpawn := 0 }

/-- C5 is false on the code: spawning with random draw r = 0.9 on a
650-high canvas (playable band 600, gap 180, maxGapTop 370) puts the
gap at [383, 563], so the bottom stub is 600 − 563 = 37 < 50: only the
top stub is guaranteed the minimum height. -/
theorem c5_counterexample :
    (spawnPipes gC5 2000 (9/10)).pipes.map Pipe.gapBottom = [563] ∧
    gC5.height - groundHeight - ceilingHeight - (563 : ℚ) < minPipeHeight := by
  constructor
  · simp only [spawnPipes, gC5]
    rw [if_pos (by norm_num [pipeSpawnInterval])]
    norm_num [groundHeight, ceilingHeight, minPipeHeight]
  · norm_num [gC5, groundHeight, ceilingHeight, minPipeHeight]

/-- C5 amended: a spawned obstacle always has its top stub at least
minPipeHeight, but the bottom stub — (1−r)·maxGapTop — is only
guaranteed strictly positive; for r close to 1 it drops below
minPipeHeight. -/
theorem c5_amended (g : Game) (dt r : ℚ)
    (hr0 : 0 ≤ r) (hr1 : r < 1)
    (hfire : pipeSpawnInterval ≤ g.lastPipeSpawn + dt)
    (hroom : 0 < g.height - groundHeight - ceilingHeight -
      max 120 (g.basePipeGap - (g.score : ℚ) * 2) - minPipeHeight) :
    ∃ p : Pipe, (spawnPipes g dt r).pipes = g.pipes ++ [p] ∧
      minPipeHeight ≤ p.gapTop ∧
      0 < g.height - groundHeight - ceilingHeight - p.gapBottom ∧
      p.gapBottom - p.gapTop = max 120 (g.basePipeGap - (g.score : ℚ) * 2) := by
  unfold spawnPipes
  rw [if_pos hfire]
  refine ⟨_, rfl, ?_, ?_, ?_⟩
  · dsimp only
    nlinarith [mul_nonneg hr0 hroom.le]
  · dsimp only
    nlinarith [mul_pos (sub_pos.2 hr1) hroom]
  · dsimp only
    ring

/-- Witness for C5 amended at the concrete state with r = 1/2. -/
theorem c5_witness :
    ∃ p : Pipe, (spawnPipes gC5 2000 (1/2)).pipes = gC5.pipes ++ [p] ∧
      minPipeHeight ≤ p.gapTop ∧
      0 < gC5.height - groundHeight - ceilingHeight - p.gapBottom ∧
      p.gapBottom - p.gapTop = max 120 (gC5.basePipeGap - (gC5.score : ℚ) * 2) :=
  c5_amended gC5 2000 (1/2) (by norm_num) (by norm_num)
    (by norm_num [gC5, pipeSpawnInterval])
    (by norm_num [gC5, groundHeight, ceilingHeight, minPipeHeight])

/-- updatePipes leaves the spawn timer alone. -/
theorem updatePipes_timer (g : Game) :
    (updatePipes g).lastPipeSpawn = g.lastPipeSpawn := rfl

/-- C9: one update call in PLAYING appends at most one obstacle no
matter how large deltaTime is, and when the spawn fires (accumulated
timer at least the interval) the timer is reset to exactly 0,
discarding the surplus. -/
theorem c9_single_spawn (g : Game) (dt r : ℚ) (hp : g.state = GState.playing) :
    (update g dt r).pipes.length ≤ g.pipes.length + 1 ∧
    (pipeSpawnInterval ≤ g.lastPipeSpawn + dt → (update g dt r).lastPipeSpawn = 0) := by
  have hne : ¬ g.state ≠ GState.playing := fun h => h hp
  unfold update
  rw [if_neg hne]
  have hlen2 : (updatePipes (updateBirdPosition g)).pipes.length ≤ g.pipes.length :=
    processPipes_length _ _ g.pipes _ _
  have hp3 : (if checkCollisions (updatePipes (updateBirdPosition g)) then
      gameOverStep (updatePipes (updateBirdPosition g)) else
      updatePipes (updateBirdPosition g)).pipes =
      (updatePipes (updateBirdPosition g)).pipes := by
    split <;> rfl
  have ht3 : (if checkCollisions (updatePipes (updateBirdPosition g)) then
      gameOverStep (updatePipes (updateBirdPosition g)) else
      updatePipes (updateBirdPosition g)).lastPipeSpawn = g.lastPipeSpawn := by
    split <;> rfl
  unfold spawnPipes
  dsimp only
  rw [ht3]
  by_cases hfire : pipeSpawnInterval ≤ g.lastPipeSpawn + dt
  · rw [if_pos hfire]
    constructor
    · dsimp only
      rw [hp3]
      simp only [List.length_append, List.length_cons, List.length_nil]
      omega
    · intro _; rfl
  · rw [if_neg hfire]
    constructor
    · dsimp only
      rw [hp3]
      omega
    · intro h
      exact absurd h hfire

/-- A waiting-for-spawn playing state with an empty obstacle list, used
to instantiate C9 with an oversized deltaTime. -/
def gC9 : Game :=
  { width := 800, height := 600, state := .playing, score := 0, highScore := 0,
    birdX := 160, birdY := 300, birdTargetY := 300, pipes := [], pipeGap := 180,
    basePipeGap := 180, pipeSpeed := 3, lastPipeSpawn := 0 }

/-- Witness for C9: deltaTime 5000 covers two spawn intervals yet only
one pipe appears and the timer resets to 0. -/
theorem c9_witness :
    (update gC9 5000 (1/2)).pipes.length ≤ gC9.pipes.length + 1 ∧
    (update gC9 5000 (1/2)).lastPipeSpawn = 0 :=
  ⟨(c9_single_spawn gC9 5000 (1/2) rfl).1,
   (c9_single_spawn gC9 5000 (1/2) rfl).2 (by norm_num [gC9, pipeSpawnInterval])⟩

/-- The eviction comparison, unfolded to arithmetic. -/
theorem moreEvictable_iff (a b : Entry) :
    moreEvictable a b = true ↔
      (a.score < b.score ∨ (a.score = b.score ∧ b.createdAt < a.createdAt)) := by
  simp [moreEvictable]

/-- The eviction comparison is irreflexive. -/
theorem moreEvictable_irrefl (a : Entry) : moreEvictable a a = false := by
  rw [← Bool.not_eq_true, moreEvictable_iff]
  omega

/-- From a non-strict comparison against an element that strictly beats
a third, the third is also strictly beaten (used to push the fold
invariant through a kept accumulator). -/
theorem moreEvictable_neg_trans (x b r : Entry) (hxb : moreEvictable x b = false)
    (hxr : moreEvictable x r = true) : moreEvictable b r = true := by
  rw [← Bool.not_eq_true, moreEvictable_iff] at hxb
  rw [moreEvictable_iff] at hxr ⊢
  omega

/-- Transitivity of the eviction comparison. -/
theorem moreEvictable_trans (a b c : Entry) (hab : moreEvictable a b = true)
    (hbc : moreEvictable b c = true) : moreEvictable a c = true := by
  rw [moreEvictable_iff] at hab hbc ⊢
  omega

/-- The fold selecting an eviction candidate returns one of its inputs
and a minimal one: no input strictly precedes it in
(score ASC, created_at DESC) order. -/
theorem foldl_evict_spec (es : List Entry) : ∀ b : Entry,
    (es.foldl evictFold b = b ∨ es.foldl evictFold b ∈ es) ∧
    moreEvictable b (es.foldl evictFold b) = false ∧
    (∀ e ∈ es, moreEvictable e (es.foldl evictFold b) = false) := by
  induction es with
  | nil =>
    intro b
    exact ⟨Or.inl rfl, moreEvictable_irrefl b, fun e he => absurd he (List.not_mem_nil e)⟩
  | cons x es ih =>
    intro b
    have hfold : (x :: es).foldl evictFold b = es.foldl evictFold (evictFold b x) := rfl
    rcases Bool.eq_false_or_eq_true (moreEvictable x b) with hx | hx
    · have hb1 : evictFold b x = x := by rw [evictFold, hx]; rfl
      obtain ⟨hmem, hxmin, hallmin⟩ := ih x
      rw [hfold, hb1]
      refine ⟨?_, ?_, ?_⟩
      · rcases hmem with h | h
        · exact Or.inr (by rw [h]; exact List.mem_cons_self x es)
        · exact Or.inr (List.mem_cons_of_mem x h)
      · rw [Bool.eq_false_iff]
        intro hbr
        have hxr := moreEvictable_trans x b _ hx hbr
        rw [hxr] at hxmin
        exact Bool.noConfusion hxmin
      · intro e he
        rcases List.mem_cons.1 he with rfl | he'
        · exact hxmin
        · exact hallmin e he'
    · have hb1 : evictFold b x = b := by rw [evictFold, hx]; rfl
      obtain ⟨hmem, hbmin, hallmin⟩ := ih b
      rw [hfold, hb1]
      refine ⟨?_, hbmin, ?_⟩
      · rcases hmem with h | h
        · exact Or.inl h
        · exact Or.inr (List.mem_cons_of_mem x h)
      · intro e he
        rcases List.mem_cons.1 he with rfl | he'
        · rw [Bool.eq_false_iff]
          intro hxr
          have hb := moreEvictable_neg_trans e b _ hx hxr
          rw [hb] at hbmin
          exact Bool.noConfusion hbmin
        · exact hallmin e he'

/-- pickEvict on a nonempty table returns a member that is minimal
under (score ASC, created_at DESC). -/
theorem pickEvict_spec (l : List Entry) (hne : l ≠ []) :
    ∃ p, pickEvict l = some p ∧ p ∈ l ∧
      ∀ e ∈ l, moreEvictable e p = false := by
  cases l with
  | nil => exact absurd rfl hne
  | cons a es =>
    obtain ⟨hmem, hamin, hallmin⟩ := foldl_evict_spec es a
    refine ⟨es.foldl evictFold a, rfl, ?_, ?_⟩
    · rcases hmem with h | h
      · rw [h]; exact List.mem_cons_self a es
      · exact List.mem_cons_of_mem a h
    · intro e he
      rcases List.mem_cons.1 he with rfl | he'
      · exact hamin
      · exact hallmin e he'

/-- Minimality under the eviction order, in arithmetic form. -/
theorem evict_min_arith (e p : Entry) (h : moreEvictable e p = false) :
    p.score ≤ e.score ∧ (e.score = p.score → e.createdAt ≤ p.createdAt) := by
  rw [Bool.eq_false_iff, Ne, moreEvictable_iff] at h
  omega

/-- One submission never pushes the leaderboard table past 100 rows. -/
theorem submitScore_len (db : DB) (t : ℕ) (name : String) (score : ℕ)
    (h : db.lb.length ≤ MAX_LEADERBOARD) :
    (submitScore db t name score).1.lb.length ≤ MAX_LEADERBOARD := by
  by_cases hname : (jsTrim name).length = 0
  · unfold submitScore
    rw [if_pos hname]
    exact h
  · rw [submitScore_db db t name score hname]
    by_cases hadm : admits db.lb score = true
    · rw [if_pos hadm]
      unfold admitEntry
      by_cases hcap : MAX_LEADERBOARD ≤ db.lb.length
      · rw [if_pos hcap]
        obtain ⟨p, hpick, hmem, _⟩ :=
          pickEvict_spec (db.lb ++ [mkEntry name score t]) (by simp)
        rw [hpick]
        dsimp only
        rw [List.length_erase_of_mem hmem]
        simp only [List.length_append, List.length_cons, List.length_nil]
        omega
      · rw [if_neg hcap]
        dsimp only
        simp only [List.length_append, List.length_cons, List.length_nil]
        unfold MAX_LEADERBOARD at *
        omega
    · rw [if_neg hadm]
      exact h

/-- No sequence of submissions pushes the leaderboard past 100 rows. -/
theorem runSubmits_len : ∀ (subs : List (String × ℕ)) (t : ℕ) (db : DB),
    db.lb.length ≤ MAX_LEADERBOARD →
    (runSubmits t subs db).lb.length ≤ MAX_LEADERBOARD := by
  intro subs
  induction subs with
  | nil => intro t db h; exact h
  | cons p rest ih =>
    intro t db h
    exact ih (t + 1) _ (submitScore_len db t p.1 p.2 h)

/-- Below the cap, every score is admitted. -/
theorem admits_of_room (lb : List Entry) (score : ℕ)
    (h : lb.length < MAX_LEADERBOARD) : admits lb score = true := by
  unfold admits
  rw [decide_eq_true h]
  exact Bool.true_or _

/-- A score strictly beating the current lowest is admitted. -/
theorem admits_of_beats (lb : List Entry) (score l : ℕ)
    (hl : lowestScore lb = some l) (hs : l < score) : admits lb score = true := by
  unfold admits
  rw [hl]
  dsimp only
  rw [decide_eq_true hs]
  exact Bool.or_true _

/-- mkEntries distributes over append, shifting the timestamp. -/
theorem mkEntries_append : ∀ (a b : List (String × ℕ)) (t : ℕ),
    mkEntries t (a ++ b) = mkEntries t a ++ mkEntries (t + a.length) b := by
  intro a
  induction a with
  | nil => intro b t; simp [mkEntries]
  | cons p rest ih =>
    intro b t
    have harith : t + (p :: rest).length = t + 1 + rest.length := by
      simp only [List.length_cons]
      omega
    show mkEntry p.1 p.2 t :: mkEntries (t + 1) (rest ++ b) =
      mkEntry p.1 p.2 t :: (mkEntries (t + 1) rest ++ mkEntries (t + (p :: rest).length) b)
    rw [harith, ih b (t + 1)]

/-- mkEntries preserves length. -/
theorem mkEntries_length : ∀ (subs : List (String × ℕ)) (t : ℕ),
    (mkEntries t subs).length = subs.length := by
  intro subs
  induction subs with
  | nil => intro t; rfl
  | cons p rest ih => intro t; simp only [mkEntries, List.length_cons, ih (t + 1)]

/-- The scores of the created entries are the submitted scores. -/
theorem mkEntries_map_score : ∀ (subs : List (String × ℕ)) (t : ℕ),
    (mkEntries t subs).map Entry.score = subs.map Prod.snd := by
  intro subs
  induction subs with
  | nil => intro t; rfl
  | cons p rest ih => intro t; simp only [mkEntries, List.map_cons, ih (t + 1), mkEntry]

/-- Splitting a run of submissions. -/
theorem runSubmits_append : ∀ (a b : List (String × ℕ)) (t : ℕ) (db : DB),
    runSubmits t (a ++ b) db = runSubmits (t + a.length) b (runSubmits t a db) := by
  intro a
  induction a with
  | nil => intro b t db; rfl
  | cons p rest ih =>
    intro b t db
    have harith : t + (p :: rest).length = t + 1 + rest.length := by
      simp only [List.length_cons]
      omega
    show runSubmits (t + 1) (rest ++ b) (submitScore db t p.1 p.2).1 =
      runSubmits (t + (p :: rest).length) b (runSubmits (t + 1) rest (submitScore db t p.1 p.2).1)
    rw [harith, ih b (t + 1)]

/-- While the table has room for the whole batch, valid submissions are
appended verbatim in order, with consecutive timestamps. -/
theorem runSubmits_fill : ∀ (subs : List (String × ℕ)) (t : ℕ) (db : DB),
    (∀ p ∈ subs, (jsTrim p.1).length ≠ 0) →
    db.lb.length + subs.length ≤ MAX_LEADERBOARD →
    (runSubmits t subs db).lb = db.lb ++ mkEntries t subs := by
  intro subs
  induction subs with
  | nil => intro t db _ _; simp [runSubmits, mkEntries]
  | cons p rest ih =>
    intro t db hnames hroom
    have hname : (jsTrim p.1).length ≠ 0 := hnames p (List.mem_cons_self p rest)
    have hadm : admits db.lb p.2 = true := by
      apply admits_of_room
      simp only [List.length_cons] at hroom
      omega
    have hdb1 : (submitScore db t p.1 p.2).1 =
        ⟨histInsert db.hist (min p.2 MAX_TRACKED_SCORE), db.lb ++ [mkEntry p.1 p.2 t]⟩ := by
      rw [submitScore_db db t p.1 p.2 hname, if_pos hadm]
      unfold admitEntry
      rw [if_neg (by simp only [List.length_cons] at hroom; omega)]
    show (runSubmits (t + 1) rest (submitScore db t p.1 p.2).1).lb = _
    rw [hdb1, ih (t + 1) _ (fun q hq => hnames q (List.mem_cons_of_mem p hq))
      (by simp only [List.length_append, List.length_cons, List.length_nil] at *; omega)]
    simp [mkEntries, List.append_assoc]

/-- A fold over min that never goes below its seed keeps the seed. -/
theorem foldl_min_const : ∀ (es : List Entry) (m : ℕ),
    (∀ x ∈ es, m ≤ x.score) → es.foldl (fun m x => min m x.score) m = m := by
  intro es
  induction es with
  | nil => intro m _; rfl
  | cons x es ih =>
    intro m hall
    have hx : min m x.score = m := min_eq_left (hall x (List.mem_cons_self x es))
    show es.foldl (fun m x => min m x.score) (min m x.score) = m
    rw [hx]
    exact ih m (fun y hy => hall y (List.mem_cons_of_mem x hy))

/-- The lowest score of a list headed by its minimum. -/
theorem lowestScore_head_min (e : Entry) (es : List Entry)
    (hall : ∀ x ∈ es, e.score ≤ x.score) :
    lowestScore (e :: es) = some e.score := by
  show some (es.foldl (fun m x => min m x.score) e.score) = some e.score
  rw [foldl_min_const es e.score hall]

/-- The eviction fold keeps a seed that nothing strictly beats. -/
theorem foldl_evict_const : ∀ (es : List Entry) (b : Entry),
    (∀ x ∈ es, moreEvictable x b = false) → es.foldl evictFold b = b := by
  intro es
  induction es with
  | nil => intro b _; rfl
  | cons x es ih =>
    intro b hall
    have hx : evictFold b x = b := by
      rw [evictFold, hall x (List.mem_cons_self x es)]
      rfl
    show es.foldl evictFold (evictFold b x) = b
    rw [hx]
    exact ih b (fun y hy => hall y (List.mem_cons_of_mem x hy))

/-- Submitting 101 valid, strictly ascending scores to an empty service
leaves exactly the last 100 of them on the leaderboard: the 101st
submission is admitted at capacity and evicts the unique lowest entry,
which is the very first submission. -/
theorem ascending_run_result (subs : List (String × ℕ)) (hlen101 : subs.length = 101)
    (hchain : List.Chain' (· < ·) (subs.map Prod.snd))
    (hnames : ∀ p ∈ subs, (jsTrim p.1).length ≠ 0) :
    (runSubmits 0 subs dbEmpty).lb = (mkEntries 0 subs).tail ∧
    (runSubmits 0 subs dbEmpty).lb.map Entry.score = (subs.map Prod.snd).tail ∧
    (runSubmits 0 subs dbEmpty).lb.length = MAX_LEADERBOARD := by
  rcases List.eq_nil_or_concat subs with hnil | ⟨first, lastp, hsubs⟩
  · rw [hnil] at hlen101
    exact absurd hlen101 (by decide)
  rw [List.concat_eq_append] at hsubs
  subst hsubs
  have hfl : first.length = 100 := by
    simp only [List.length_append, List.length_cons, List.length_nil] at hlen101
    omega
  have hpw : List.Pairwise (· < ·) ((first ++ [lastp]).map Prod.snd) :=
    List.chain'_iff_pairwise.mp hchain
  cases first with
  | nil => exact absurd hfl (by decide)
  | cons f0 frest =>
  -- score facts from pairwise order
  have hpw' : List.Pairwise (· < ·)
      (f0.2 :: (frest.map Prod.snd ++ [lastp.2])) := by
    simpa using hpw
  have hhead : ∀ y ∈ frest.map Prod.snd ++ [lastp.2], f0.2 < y :=
    fun y hy => List.rel_of_pairwise_cons hpw' hy
  have hbeats : f0.2 < lastp.2 :=
    hhead lastp.2 (List.mem_append_right _ (List.mem_cons_self _ _))
  have hfrest : ∀ x ∈ mkEntries 1 frest, f0.2 < x.score := by
    intro x hx
    apply hhead x.score
    apply List.mem_append_left
    rw [← mkEntries_map_score frest 1]
    exact List.mem_map_of_mem Entry.score hx
  -- phase 1: the first 100 submissions are appended verbatim
  have hphase : (runSubmits 0 (f0 :: frest) dbEmpty).lb = mkEntries 0 (f0 :: frest) := by
    have h := runSubmits_fill (f0 :: frest) 0 dbEmpty
      (fun q hq => hnames q (List.mem_append_left _ hq))
      (by simp only [dbEmpty, List.length_nil, hfl, MAX_LEADERBOARD]; omega)
    simpa [dbEmpty] using h
  -- split off the 101st submission
  have hsplit : runSubmits 0 ((f0 :: frest) ++ [lastp]) dbEmpty =
      (submitScore (runSubmits 0 (f0 :: frest) dbEmpty)
        (f0 :: frest).length lastp.1 lastp.2).1 := by
    rw [runSubmits_append (f0 :: frest) [lastp] 0 dbEmpty]
    simp only [Nat.zero_add]
    rfl
  -- the final submission: admitted at capacity, evicts the head
  have hlow : lowestScore (runSubmits 0 (f0 :: frest) dbEmpty).lb = some f0.2 := by
    rw [hphase]
    show lowestScore (mkEntry f0.1 f0.2 0 :: mkEntries 1 frest) = some f0.2
    exact lowestScore_head_min _ _ (fun x hx => le_of_lt (hfrest x hx))
  have hadm : admits (runSubmits 0 (f0 :: frest) dbEmpty).lb lastp.2 = true :=
    admits_of_beats _ lastp.2 f0.2 hlow hbeats
  have hcap : MAX_LEADERBOARD ≤ (runSubmits 0 (f0 :: frest) dbEmpty).lb.length := by
    rw [hphase, mkEntries_length, hfl]
    decide
  have hpick : pickEvict ((runSubmits 0 (f0 :: frest) dbEmpty).lb ++
      [mkEntry lastp.1 lastp.2 (f0 :: frest).length]) = some (mkEntry f0.1 f0.2 0) := by
    rw [hphase]
    show some ((mkEntries 1 frest ++ [mkEntry lastp.1 lastp.2 (f0 :: frest).length]).foldl
      evictFold (mkEntry f0.1 f0.2 0)) = _
    rw [foldl_evict_const]
    intro x hx
    have hxs : f0.2 < x.score := by
      rcases List.mem_append.1 hx with hx1 | hx2
      · exact hfrest x hx1
      · rw [List.mem_singleton.1 hx2]
        exact hbeats
    rw [Bool.eq_false_iff, Ne, moreEvictable_iff]
    show ¬(x.score < f0.2 ∨ x.score = f0.2 ∧ _ < x.createdAt)
    omega
  have hfinal : (runSubmits 0 ((f0 :: frest) ++ [lastp]) dbEmpty).lb =
      mkEntries 1 frest ++ [mkEntry lastp.1 lastp.2 (f0 :: frest).length] := by
    rw [hsplit, submitScore_db _ _ _ _ (hnames lastp
      (List.mem_append_right _ (List.mem_cons_self _ _))), if_pos hadm]
    show admitEntry (runSubmits 0 (f0 :: frest) dbEmpty).lb
      (mkEntry lastp.1 lastp.2 (f0 :: frest).length) = _
    unfold admitEntry
    rw [if_pos hcap]
    rw [hpick, hphase]
    show (mkEntry f0.1 f0.2 0 :: (mkEntries 1 frest ++
      [mkEntry lastp.1 lastp.2 (f0 :: frest).length])).erase (mkEntry f0.1 f0.2 0) = _
    rw [List.erase_cons_head]
  refine ⟨?_, ?_, ?_⟩
  · rw [hfinal]
    have : mkEntries 0 ((f0 :: frest) ++ [lastp]) =
        mkEntry f0.1 f0.2 0 :: (mkEntries 1 frest ++
          [mkEntry lastp.1 lastp.2 (f0 :: frest).length]) := by
      rw [mkEntries_append (f0 :: frest) [lastp] 0]
      simp only [Nat.zero_add]
      rfl
    rw [this]
    rfl
  · rw [hfinal]
    rw [List.map_append, mkEntries_map_score frest 1]
    show frest.map Prod.snd ++ [lastp.2] = (frest ++ [lastp]).map Prod.snd
    simp
  · rw [hfinal]
    simp only [List.length_append, mkEntries_length, List.length_cons, List.length_nil]
    simp only [List.length_cons] at hfl
    unfold MAX_LEADERBOARD
    omega

/-- C6: (a) starting from an empty database, any sequence of sequential
submissions leaves at most 100 leaderboard rows; (b) an admission at
capacity evicts exactly one row — a lowest-scoring one, and among
equal-lowest the most recently added — leaving exactly 100 rows;
(c) 101 valid submissions with strictly ascending scores leave exactly
100 rows: all but the first (lowest) submission, i.e. the 100 highest
scores. -/
theorem c6_leaderboard_bound :
    (∀ (t : ℕ) (subs : List (String × ℕ)),
      (runSubmits t subs dbEmpty).lb.length ≤ MAX_LEADERBOARD) ∧
    (∀ (db : DB) (t : ℕ) (name : String) (score l : ℕ),
      (jsTrim name).length ≠ 0 → db.lb.length = MAX_LEADERBOARD →
      lowestScore db.lb = some l → l < score →
      ∃ p, pickEvict (db.lb ++ [mkEntry name score t]) = some p ∧
        p ∈ db.lb ++ [mkEntry name score t] ∧
        (∀ e ∈ db.lb ++ [mkEntry name score t],
          p.score ≤ e.score ∧ (e.score = p.score → e.createdAt ≤ p.createdAt)) ∧
        (submitScore db t name score).1.lb = (db.lb ++ [mkEntry name score t]).erase p ∧
        (submitScore db t name score).1.lb.length = MAX_LEADERBOARD) ∧
    (∀ subs : List (String × ℕ), subs.length = 101 →
      List.Chain' (· < ·) (subs.map Prod.snd) →
      (∀ p ∈ subs, (jsTrim p.1).length ≠ 0) →
      (runSubmits 0 subs dbEmpty).lb = (mkEntries 0 subs).tail ∧
      (runSubmits 0 subs dbEmpty).lb.map Entry.score = (subs.map Prod.snd).tail ∧
      (runSubmits 0 subs dbEmpty).lb.length = MAX_LEADERBOARD) := by
  refine ⟨?_, ?_, ?_⟩
  · intro t subs
    exact runSubmits_len subs t dbEmpty (Nat.zero_le _)
  · intro db t name score l hname hlen hlow hbeats
    have hadm := admits_of_beats db.lb score l hlow hbeats
    obtain ⟨p, hpick, hmem, hminall⟩ :=
      pickEvict_spec (db.lb ++ [mkEntry name score t]) (by simp)
    have hlb : (submitScore db t name score).1.lb =
        (db.lb ++ [mkEntry name score t]).erase p := by
      rw [submitScore_db db t name score hname, if_pos hadm]
      show admitEntry db.lb (mkEntry name score t) = _
      unfold admitEntry
      rw [if_pos (le_of_eq hlen.symm)]
      rw [hpick]
    refine ⟨p, hpick, hmem, ?_, hlb, ?_⟩
    · intro e he
      exact evict_min_arith e p (hminall e he)
    · rw [hlb, List.length_erase_of_mem hmem]
      simp only [List.length_append, List.length_cons, List.length_nil]
      omega
  · exact ascending_run_result

/-- A leaderboard at capacity: 100 rows with scores 1..100, timestamps
0..99, used to instantiate the C6 eviction step. -/
def dbC6 : DB := ⟨fun _ => 0, (List.range 100).map (fun i => ⟨"p", i + 1, i⟩)⟩

/-- Witness for C6 at a concrete full leaderboard: submitting 200
admits the entry, evicts the minimal row, and keeps the table at 100. -/
theorem c6_witness :
    ∃ p, pickEvict (dbC6.lb ++ [mkEntry "q" 200 100]) = some p ∧
      p ∈ dbC6.lb ++ [mkEntry "q" 200 100] ∧
      (∀ e ∈ dbC6.lb ++ [mkEntry "q" 200 100],
        p.score ≤ e.score ∧ (e.score = p.score → e.createdAt ≤ p.createdAt)) ∧
      (submitScore dbC6 100 "q" 200).1.lb = (dbC6.lb ++ [mkEntry "q" 200 100]).erase p ∧
      (submitScore dbC6 100 "q" 200).1.lb.length = MAX_LEADERBOARD :=
  c6_leaderboard_bound.2.1 dbC6 100 "q" 200 1 (by decide) (by decide) (by decide)
    (by decide)
